import Mathlib

/-!
Verification development for the chatguys message-routing core.

Shallow embedding of:
  * `src/chatguys/utils/text.py`  (`extract_mentions`)            — mention parser
  * `src/chatguys/core/context.py` (`ContextManager`)             — history store
  * `src/chatguys/cli/app.py`     (`ChatApp._process_agent_response`, `ChatApp.run`)
  * `src/chatguys/core/agent.py`  (`Agent.get_response`)          — agent call outcomes

Strings are modelled as `List Char`.  The regex `@(\w+)` is modelled over the
ASCII fragment of `\w` (letters, digits, underscore), and Python `str.strip` /
`str.isspace` over the common ASCII whitespace characters; all inputs exercised
by the specification are ASCII.  `datetime` timestamps are modelled as `Nat`
(Python `datetime` values are totally ordered and `isoformat` is injective, so
set-membership of isoformat strings coincides with timestamp equality).
-/

/-- ASCII fragment of Python's regex word class `\w`. -/
def isWordChar (c : Char) : Bool := c.isAlphanum || c = '_'

/-- Python whitespace characters recognised by `str.strip` / `str.isspace`
(ASCII fragment: space, tab, newline, carriage return, vertical tab, form feed). -/
def isPySpace (c : Char) : Bool :=
  c = ' ' || c = '\t' || c = '\n' || c = '\r' || c = '\x0b' || c = '\x0c'

/-- Python `str.strip()`: remove whitespace from both ends. -/
def pyStrip (s : List Char) : List Char :=
  ((s.dropWhile isPySpace).reverse.dropWhile isPySpace).reverse

/-- Python `str.isspace()`: true iff non-empty and all characters are whitespace. -/
def pyIsSpace (s : List Char) : Bool := !s.isEmpty && s.all isPySpace

/-- Python slice `s[a:b]`. -/
def substrOf (s : List Char) (a b : Nat) : List Char := (s.drop a).take (b - a)

/-- One regex match of `@(\w+)`: `start`/`stop` are the span of the whole
token (`match.span()`), `role` is capture group 1. -/
structure Mention where
  start : Nat
  stop : Nat
  role : List Char
deriving DecidableEq, Repr

/-- `re.finditer(r'@(\w+)', message)`: scan left to right, non-overlapping,
greedy word run after each `@`.  `fuel` bounds the recursion and is
initialised to the string length (each step consumes at least one character). -/
def findMentionsAux : Nat → List Char → Nat → List Mention
  | 0, _, _ => []
  | _ + 1, [], _ => []
  | fuel + 1, c :: rest, i =>
    if c = '@' then
      let w := rest.takeWhile isWordChar
      if w.isEmpty then findMentionsAux fuel rest (i + 1)
      else { start := i, stop := i + 1 + w.length, role := w } ::
        findMentionsAux fuel (rest.drop w.length) (i + 1 + w.length)
    else findMentionsAux fuel rest (i + 1)

/-- All `@(\w+)` matches of a message, with their spans (text.py line 27). -/
def findMentions (s : List Char) : List Mention := findMentionsAux s.length s 0

/-- `match.group(0)`: the full mention token including the `@`. -/
def mentionToken (m : Mention) : List Char := '@' :: m.role

/-- `" ".join(m.group(0) for m in ms)` (text.py lines 49 and 59). -/
def sjoin (ms : List Mention) : List Char :=
  List.intercalate [' '] (ms.map mentionToken)

/-- text.py lines 47-52: collect the leading mentions whose start offset lies
inside the prefix region; the loop breaks at the first failure. -/
def startMentionsAux (prefixLen : Nat) (acc : List Mention) : List Mention → List Mention
  | [] => acc
  | m :: rest =>
    if m.start < prefixLen + (sjoin acc).length then
      startMentionsAux prefixLen (acc ++ [m]) rest
    else acc

/-- text.py lines 55-62: collect the trailing mentions (iterating the reversed
match list, inserting at the front); the loop breaks at the first failure.
The Python subtraction is over `int`, hence the `Int` cast. -/
def endMentionsAux (msgLen sufLen : Nat) (acc : List Mention) : List Mention → List Mention
  | [] => acc
  | m :: rest =>
    if (m.stop : Int) > (msgLen : Int) - (sufLen : Int) - ((sjoin acc).length : Int) then
      endMentionsAux msgLen sufLen (m :: acc) rest
    else acc

/-- text.py lines 34-42, `are_mentions_grouped`: at most one mention, or only
whitespace between each adjacent pair (Python `"".isspace()` is `False`, so
directly adjacent mentions such as `@A@B` are NOT grouped). -/
def groupedCheck (message : List Char) : List Mention → Bool
  | [] => true
  | [_] => true
  | m1 :: m2 :: rest =>
    pyIsSpace (substrOf message m1.stop m2.start) && groupedCheck message (m2 :: rest)

/-- `message[:matches[0].span()[0]].strip()` — trimmed text before the first mention. -/
def beforeTxt (message : List Char) (m0 : Mention) : List Char :=
  pyStrip (message.take m0.start)

/-- `message[matches[-1].span()[1]:].strip()` — trimmed text after the last mention. -/
def afterTxt (message : List Char) (mlast : Mention) : List Char :=
  pyStrip (message.drop mlast.stop)

/-- text.py lines 83-85: shared body for grouped mentions — the text after the
last mention if strictly longer, otherwise the text before the first mention. -/
def sharedBody (message : List Char) (m0 mlast : Mention) : List Char :=
  if (beforeTxt message m0).length < (afterTxt message mlast).length then
    afterTxt message mlast
  else beforeTxt message m0

/-- text.py lines 92-107: the segmented ("role-specific messages") case.  Each
mention gets the trimmed text up to the next mention (or end of message);
empty segments are dropped. -/
def segmentsOf (message : List Char) : List Mention → List (List Char × List Char)
  | [] => []
  | [m] =>
    let content := pyStrip (message.drop m.stop)
    if content.isEmpty then [] else [(m.role, content)]
  | m :: m2 :: rest =>
    let content := pyStrip (substrOf message m.stop m2.start)
    let tail := segmentsOf message (m2 :: rest)
    if content.isEmpty then tail else (m.role, content) :: tail

/-- The implicit role used when no mentions are present. -/
def defaultRole : List Char := ['D', 'e', 'f', 'a', 'u', 'l', 't']

/-- text.py lines 33-107: the body of `extract_mentions` once at least one
mention was found (`matches = m0 :: ms`). -/
def extractWithMentions (message : List Char) (m0 : Mention) (ms : List Mention) :
    List (List Char × List Char) :=
  let mts := m0 :: ms
  let mlast := mts.getLastD m0
  let preTxt := beforeTxt message m0
  let start_mentions := startMentionsAux preTxt.length [] mts
  let sufTxt := afterTxt message mlast
  let end_mentions := endMentionsAux message.length sufTxt.length [] mts.reverse
  let is_shared :=
    (start_mentions.length == mts.length && preTxt.isEmpty) ||
    (end_mentions.length == mts.length && sufTxt.isEmpty) ||
    groupedCheck message mts
  if is_shared then
    let content :=
      if start_mentions.length == mts.length then afterTxt message mlast
      else if end_mentions.length == mts.length then beforeTxt message m0
      else sharedBody message m0 mlast
    if content.isEmpty then []
    else mts.map (fun m => (m.role, content))
  else segmentsOf message mts

/-- text.py `extract_mentions`: strip the input; empty input yields `[]`; with
no mentions route the whole message to `Default`; otherwise the broadcast /
segmented logic above. -/
def extract_mentions (input : List Char) : List (List Char × List Char) :=
  let message := pyStrip input
  if message.isEmpty then []
  else
    match findMentions message with
    | [] => [(defaultRole, message)]
    | m0 :: ms => extractWithMentions message m0 ms

-- Sanity checks against the docstring / spec examples.
example :
    extract_mentions "@Tech @Creative tell me about AI".data =
      [("Tech".data, "tell me about AI".data),
       ("Creative".data, "tell me about AI".data)] := by decide

example :
    extract_mentions "tell me about AI @Tech @Creative".data =
      [("Tech".data, "tell me about AI".data),
       ("Creative".data, "tell me about AI".data)] := by decide

example :
    extract_mentions "@Tech explain code. @Creative write story about it".data =
      [("Tech".data, "explain code.".data),
       ("Creative".data, "write story about it".data)] := by decide

example : extract_mentions "@A @B @C".data = [] := by decide

example : extract_mentions "   ".data = [] := by decide

example : extract_mentions "tell me about AI".data =
    [(defaultRole, "tell me about AI".data)] := by decide

/-!
## History store (`src/chatguys/core/context.py`)

The mutable state of a `ContextManager` is its capacity, message list,
session-start instant, and the two persistence targets (the JSON session file
and the plain-text rendering).  File paths are modelled by their names.
Persistence itself (`_save_history`, file reads) is external I/O; its outcome
is passed in as data: `_save_history` either succeeds or raises, and a read of
a session file is either absent, unreadable/corrupt, or a fully parsed record.
-/

/-- A chat message (`src/chatguys/models/message.py`). -/
structure Message where
  role : List Char
  content : List Char
  timestamp : Nat
deriving DecidableEq, Repr

/-- The in-memory state of `ContextManager`. -/
structure ContextManager where
  max_history : Nat
  history : List Message
  session_start : Nat
  session_file : List Char
  text_file : List Char
deriving DecidableEq, Repr

/-- Python slice `l[-k:]` for `k >= 0`.  Note `l[-0:]` is `l[0:]`, the whole
list — this is the behaviour of `self.history[-self.max_history:]` when
`max_history = 0`. -/
def pySliceLast (l : List α) (k : Nat) : List α :=
  if k = 0 then l else l.drop (l.length - k)

/-- context.py lines 38-50, `add_message` without the trailing
`_save_history()` call: append a fresh message, then trim to the most recent
`max_history` entries when the bound is exceeded. -/
def add_message (cm : ContextManager) (role content : List Char) (now : Nat) :
    ContextManager :=
  let h1 := cm.history ++ [⟨role, content, now⟩]
  let h2 := if h1.length > cm.max_history then pySliceLast h1 cm.max_history else h1
  { cm with history := h2 }

/-- context.py lines 38-53, the full `add_message` call: the body above
followed by `_save_history()`.  `add_message` contains no exception handler
and `_save_history` opens and writes two files with no `try`/`except`, so a
persistence failure (`persist_fails = true`) propagates to the caller as an
exception; the exception leaves the already-mutated object state behind. -/
def add_message_run (cm : ContextManager) (role content : List Char) (now : Nat)
    (persist_fails : Bool) : Except ContextManager ContextManager :=
  let cm' := add_message cm role content now
  if persist_fails then .error cm' else .ok cm'

/-- `Except.isOk`-style discriminator: did the call return normally? -/
def exceptOk : Except α β → Bool
  | .ok _ => true
  | .error _ => false

/-- context.py lines 68-71, `clear_history` (without the persistence call). -/
def clear_history (cm : ContextManager) : ContextManager :=
  { cm with history := [] }

/-- Ordering of messages used by `self.history.sort(key=lambda x: x.timestamp)`. -/
def msgLe (a b : Message) : Prop := a.timestamp ≤ b.timestamp

instance : DecidableRel msgLe := fun a b => Nat.decLe a.timestamp b.timestamp

instance : IsTotal Message msgLe := ⟨fun a b => Nat.le_total a.timestamp b.timestamp⟩

instance : IsTrans Message msgLe := ⟨fun _ _ _ h1 h2 => Nat.le_trans h1 h2⟩

/-- What reading a persisted session file can yield: no such file, an
unreadable/corrupt file (any exception while reading or parsing), or a fully
parsed record (session start instant plus message list). -/
inductive LoadData where
  | absent
  | corrupt
  | parsed (session_start : Nat) (msgs : List Message)
deriving DecidableEq, Repr

/-- How a call to `load_history` ends: it returns `True`, returns `False`, or
an exception escapes it (possible in the missing-file branch, where
`_save_history()` is called outside any `try`). -/
inductive LoadOutcome where
  | success
  | failure
  | raised
deriving DecidableEq, Repr

/-- `filename.rsplit('.', 1)[0]`: everything before the last dot, or the whole
name when there is no dot. -/
def rsplitBase (s : List Char) : List Char :=
  if s.contains '.' then ((s.reverse.dropWhile (fun c => c ≠ '.')).tail).reverse
  else s

def jsonExt : List Char := ['.', 'j', 's', 'o', 'n']

def txtExt : List Char := ['.', 't', 'x', 't']

/-- context.py lines 113-194, `load_history`.

Lines 123-128 rebind `session_file`/`text_file` to the requested base name
before anything is read.  A missing file keeps the history and returns `True`
(saving first when the history is empty — a save outside any `try`, so a
persist failure there raises).  A corrupt file is caught by the
`except` and yields `False` with the history untouched.  A parsed file is
merged: when the in-memory history is non-empty, loaded messages whose
timestamp is not among the PRE-EXISTING timestamps are appended (the set of
existing timestamps is computed once, before the loop); then the whole list
is stable-sorted by timestamp and trimmed with the same `[-max_history:]`
slice as `add_message`; finally `_save_history()` runs inside the `try`, so
a persist failure is caught and the call returns `False` with the merged
history already in place. -/
def load_history (cm : ContextManager) (filename : List Char) (file : LoadData)
    (persist_fails : Bool) : ContextManager × LoadOutcome :=
  let base := rsplitBase filename
  let cm1 := { cm with session_file := base ++ jsonExt, text_file := base ++ txtExt }
  match file with
  | .absent =>
    if cm1.history.isEmpty && persist_fails then (cm1, .raised) else (cm1, .success)
  | .corrupt => (cm1, .failure)
  | .parsed s msgs =>
    let cm2 := { cm1 with session_start := s }
    let merged :=
      if cm2.history.isEmpty then msgs
      else
        let existing := cm2.history.map Message.timestamp
        cm2.history ++ msgs.filter (fun m => !(existing.contains m.timestamp))
    let sorted := List.insertionSort msgLe merged
    let trimmed :=
      if sorted.length > cm2.max_history then pySliceLast sorted cm2.max_history
      else sorted
    let cm3 := { cm2 with history := trimmed }
    if persist_fails then (cm3, .failure) else (cm3, .success)

-- Sanity checks for the history store.
example :
    (add_message ⟨2, [⟨['u'], ['a'], 1⟩, ⟨['u'], ['b'], 2⟩], 0, [], []⟩
      ['u'] ['c'] 3).history =
    [⟨['u'], ['b'], 2⟩, ⟨['u'], ['c'], 3⟩] := by decide

example :
    (load_history ⟨10, [⟨['u'], ['a'], 5⟩], 0, [], []⟩ ['s']
      (.parsed 0 [⟨['r'], ['b'], 3⟩, ⟨['u'], ['a'], 5⟩]) false).1.history =
    [⟨['r'], ['b'], 3⟩, ⟨['u'], ['a'], 5⟩] := by decide

/-!
## Agent call and per-instruction processing
(`src/chatguys/core/agent.py`, `src/chatguys/cli/app.py`)

`Agent.get_response` issues one external API call.  Its outcome is external
data: the call returns content, times out (`asyncio.TimeoutError` after the
30-second budget), or fails with some error.  agent.py lines 104-113 convert
the latter two into plain strings returned normally — `get_response` never
raises (apart from cancellation, which is out of scope here).
-/

/-- Outcome of the single external completion call made by `get_response`. -/
inductive AgentOutcome where
  | ok (content : List Char)
  | timedOut
  | apiFailed (reason : List Char)
deriving DecidableEq, Repr

def timeoutMsg : List Char := "Error: Response timeout after 30 seconds".data

/-- agent.py lines 96-113: the string actually returned by
`Agent.get_response` for each call outcome.  A timeout returns the fixed
timeout string; any other exception returns
`f"Error getting response from {role_name}: {e}"`.  Both are ordinary return
values, not exceptions. -/
def get_response (role_name : List Char) (outcome : AgentOutcome) : List Char :=
  match outcome with
  | .ok c => c
  | .timedOut => timeoutMsg
  | .apiFailed reason =>
    "Error getting response from ".data ++ role_name ++ ": ".data ++ reason

/-- What happens inside one `ChatApp._process_agent_response` unit:
the role is not found in the configuration; or the agent call runs and ends
with an `AgentOutcome`; or some step of the unit other than the agent call
(role-config lookup, agent construction, the history append) raises an
exception with the given message. -/
inductive UnitEvent where
  | notFound
  | agent (outcome : AgentOutcome)
  | pipelineError (reason : List Char)
deriving DecidableEq, Repr

/-- app.py lines 89-139, `_process_agent_response`: returns the updated
history-store state together with the `(role_name, response)` pair handed
back to `run`.

* role not found (line 107): return an error string, touch nothing;
* agent call completed (lines 123-132): whatever string `get_response`
  returned — the answer or an error/timeout string — is appended to history
  under `role_name` itself via `add_message(role_name, response)`;
* any other exception (lines 136-139): caught, and a single diagnostic entry
  `f"Error from {role_name}: {e}"` is appended under the speaker `"system"`. -/
def process_agent_response (cm : ContextManager) (role_name : List Char)
    (ev : UnitEvent) (now : Nat) : ContextManager × (List Char × List Char) :=
  match ev with
  | .notFound =>
    (cm, (role_name, "Error: Role \x27".data ++ role_name ++ "\x27 not found.".data))
  | .agent outcome =>
    let response := get_response role_name outcome
    (add_message cm role_name response now, (role_name, response))
  | .pipelineError reason =>
    let error_msg := "Error from ".data ++ role_name ++ ": ".data ++ reason
    (add_message cm "system".data error_msg now, (role_name, error_msg))

/-!
## Concurrent fan-out and ordered reassembly (`ChatApp.run`)

app.py lines 193-209 create one task per routing instruction, in instruction
order, and collect them with `asyncio.gather(*tasks)`; `gather` stores each
task's result in the slot matching the task's position, whatever order the
tasks complete in, and the responses are then displayed by iterating that
list.  The completion schedule is modelled as the order in which the finished
tasks deliver their results: each delivery fills the slot of that task, and
`order` ranges over all permutations of the task indices.
-/

/-- One completion event: task `i` finishes and stores its
`(role_name, response)` pair in slot `i`. -/
def gatherStep (rms : List (List Char × List Char))
    (respond : List Char → List Char → List Char)
    (slots : List (Option (List Char × List Char))) (i : Nat) :
    List (Option (List Char × List Char)) :=
  match rms[i]? with
  | some rm => slots.set i (some (rm.1, respond rm.1 rm.2))
  | none => slots

/-- app.py lines 193-209: dispatch all instructions, let them complete in the
order given by `order`, and read the slots out in task order, as
`asyncio.gather` does.  `respond` abstracts the `(role, message) ↦ response`
behaviour of one dispatch unit. -/
def gather_responses (rms : List (List Char × List Char))
    (respond : List Char → List Char → List Char) (order : List Nat) :
    List (Option (List Char × List Char)) :=
  order.foldl (gatherStep rms respond) (List.replicate rms.length none)

example :
    gather_responses [(['a'], ['x']), (['b'], ['y'])] (fun r m => r ++ m) [1, 0] =
    [some (['a'], ['a', 'x']), some (['b'], ['b', 'y'])] := by decide

/-!
## Parser lemmas

text.py lines 44-62 compute `start_mentions` and `end_mentions`, but both
loops break at their very first iteration: the first test compares the first
match's start offset against the length of the stripped text before it, and
the second compares the last match's end offset against the message length
minus the stripped text after it — both tests are unsatisfiable.  The
broadcast/segmented classification therefore rests entirely on
`are_mentions_grouped`, and the shared body always comes from the
longer-side rule of lines 83-85.  The lemmas below establish this.
-/

theorem pyStrip_length_le (s : List Char) : (pyStrip s).length ≤ s.length := by
  unfold pyStrip
  rw [List.length_reverse]
  calc ((s.dropWhile isPySpace).reverse.dropWhile isPySpace).length
      ≤ (s.dropWhile isPySpace).reverse.length :=
        (List.dropWhile_sublist _).length_le
    _ = (s.dropWhile isPySpace).length := List.length_reverse _
    _ ≤ s.length := (List.dropWhile_sublist _).length_le

theorem beforeTxt_length_le (message : List Char) (m0 : Mention) :
    (beforeTxt message m0).length ≤ m0.start := by
  refine le_trans (pyStrip_length_le _) ?_
  simp [List.length_take]

theorem afterTxt_length_le (message : List Char) (m : Mention) :
    (afterTxt message m).length ≤ message.length - m.stop := by
  refine le_trans (pyStrip_length_le _) ?_
  simp [List.length_drop]

theorem findMentionsAux_stop_le (fuel : Nat) :
    ∀ (s : List Char) (i : Nat) (m : Mention),
      m ∈ findMentionsAux fuel s i → m.stop ≤ i + s.length := by
  induction fuel with
  | zero => intro s i m h; simp [findMentionsAux] at h
  | succ n ih =>
    intro s i m h
    match s with
    | [] => simp [findMentionsAux] at h
    | c :: rest =>
      simp only [findMentionsAux] at h
      split at h
      · split at h
        · have := ih rest (i + 1) m h
          simp only [List.length_cons]
          omega
        · rcases List.mem_cons.mp h with hm | hm
          · have hw : (rest.takeWhile isWordChar).length ≤ rest.length :=
              (List.takeWhile_sublist _).length_le
            subst hm
            simp only [List.length_cons]
            omega
          · have := ih _ _ m hm
            have hw : (rest.takeWhile isWordChar).length ≤ rest.length :=
              (List.takeWhile_sublist _).length_le
            simp only [List.length_drop] at this
            simp only [List.length_cons]
            omega
      · have := ih rest (i + 1) m h
        simp only [List.length_cons]
        omega

theorem findMentions_stop_le (s : List Char) (m : Mention)
    (h : m ∈ findMentions s) : m.stop ≤ s.length := by
  simpa using findMentionsAux_stop_le s.length s 0 m h

theorem sjoin_nil : sjoin [] = [] := rfl

/-- The `start_mentions` loop of text.py lines 47-52 breaks immediately:
the stripped text before the first match is never longer than the match's
start offset. -/
theorem startMentionsAux_nil (pl : Nat) (m : Mention) (rest : List Mention)
    (h : pl ≤ m.start) : startMentionsAux pl [] (m :: rest) = [] := by
  simp only [startMentionsAux, sjoin_nil, List.length_nil]
  rw [if_neg (by omega)]

/-- The `end_mentions` loop of text.py lines 57-62 breaks immediately:
the last match's end offset never exceeds the message length minus the
stripped text after it. -/
theorem endMentionsAux_nil (msgLen sufLen : Nat) (m : Mention) (rest : List Mention)
    (h : m.stop + sufLen ≤ msgLen) :
    endMentionsAux msgLen sufLen [] (m :: rest) = [] := by
  simp only [endMentionsAux, sjoin_nil, List.length_nil]
  rw [if_neg (by push_cast; omega)]

/-- With both dead loops eliminated, `extractWithMentions` is the grouped
check followed by either the shared-body broadcast or the segmented split. -/
theorem extractWithMentions_reduce (message : List Char) (m0 : Mention)
    (ms : List Mention) (hstop : ((m0 :: ms).getLastD m0).stop ≤ message.length) :
    extractWithMentions message m0 ms =
      if groupedCheck message (m0 :: ms) then
        (if (sharedBody message m0 ((m0 :: ms).getLastD m0)).isEmpty then []
         else (m0 :: ms).map (fun m => (m.role, sharedBody message m0 ((m0 :: ms).getLastD m0))))
      else segmentsOf message (m0 :: ms) := by
  have hstart : startMentionsAux (beforeTxt message m0).length [] (m0 :: ms) = [] :=
    startMentionsAux_nil _ _ _ (beforeTxt_length_le message m0)
  have hlast : ((m0 :: ms).reverse).head? = some ((m0 :: ms).getLastD m0) := by
    rw [List.head?_reverse, List.getLastD_eq_getLast?]
    cases hg : (m0 :: ms).getLast? with
    | none => exact absurd (List.getLast?_eq_none_iff.mp hg) (List.cons_ne_nil m0 ms)
    | some x => rfl
  obtain ⟨mr, t, hrev⟩ : ∃ mr t, (m0 :: ms).reverse = mr :: t := by
    cases hr : (m0 :: ms).reverse with
    | nil =>
      have := congrArg List.length hr
      simp at this
    | cons mr t => exact ⟨mr, t, rfl⟩
  have hmr : mr = (m0 :: ms).getLastD m0 := by
    rw [hrev] at hlast
    simpa using hlast
  have hend : endMentionsAux message.length
      (afterTxt message ((m0 :: ms).getLastD m0)).length [] ((m0 :: ms).reverse) = [] := by
    rw [hrev, hmr]
    refine endMentionsAux_nil _ _ _ _ ?_
    have := afterTxt_length_le message ((m0 :: ms).getLastD m0)
    omega
  have hbeq : ((([] : List Mention)).length == (m0 :: ms).length) = false := by
    simp
  simp only [extractWithMentions, hstart, hend, hbeq, Bool.false_and, Bool.false_or,
    Bool.false_eq_true, if_false]

/-- Once at least one mention is found, `extract_mentions` is the grouped
check followed by broadcast (shared body) or segmented splitting. -/
theorem extract_mentions_with (s : List Char) (m0 : Mention) (ms : List Mention)
    (hm : findMentions (pyStrip s) = m0 :: ms) :
    extract_mentions s =
      if groupedCheck (pyStrip s) (m0 :: ms) then
        (if (sharedBody (pyStrip s) m0 ((m0 :: ms).getLastD m0)).isEmpty then []
         else (m0 :: ms).map
           (fun m => (m.role, sharedBody (pyStrip s) m0 ((m0 :: ms).getLastD m0))))
      else segmentsOf (pyStrip s) (m0 :: ms) := by
  have hne : (pyStrip s).isEmpty = false := by
    cases hps : pyStrip s with
    | nil => rw [hps] at hm; simp [findMentions, findMentionsAux] at hm
    | cons a l => rfl
  have hmem : (m0 :: ms).getLastD m0 ∈ findMentions (pyStrip s) := by
    rw [hm, List.getLastD_cons]; exact List.getLastD_mem_cons ms m0
  have hstop := findMentions_stop_le _ _ hmem
  simp only [extract_mentions, hne, Bool.false_eq_true, if_false]
  rw [hm]
  exact extractWithMentions_reduce _ _ _ hstop

/-- Characterisation of the shared body: its emptiness and its length. -/
theorem sharedBody_spec (message : List Char) (m0 mlast : Mention) :
    ((sharedBody message m0 mlast).isEmpty ↔
      (beforeTxt message m0 = [] ∧ afterTxt message mlast = []))
    ∧ (sharedBody message m0 mlast).length =
        max (beforeTxt message m0).length (afterTxt message mlast).length := by
  unfold sharedBody
  split
  · next hlt =>
    constructor
    · simp only [List.isEmpty_iff]
      constructor
      · intro h
        rw [h] at hlt
        simp at hlt
      · rintro ⟨-, h2⟩
        exact h2
    · omega
  · next hge =>
    constructor
    · simp only [List.isEmpty_iff]
      constructor
      · intro h
        refine ⟨h, ?_⟩
        rw [h] at hge
        simp only [List.length_nil, Nat.not_lt, Nat.le_zero] at hge
        exact List.length_eq_zero.mp hge
      · rintro ⟨h1, -⟩
        exact h1
    · omega

/-- C4: for every input string containing no `@`-mention tokens, `parse`
returns exactly one instruction with role `Default` and text equal to the
trimmed input, except that an empty or all-whitespace input yields the empty
sequence. -/
theorem extract_mentions_no_mentions (s : List Char)
    (h : findMentions (pyStrip s) = []) :
    extract_mentions s =
      if (pyStrip s).isEmpty then [] else [(defaultRole, pyStrip s)] := by
  cases hps : pyStrip s with
  | nil => simp [extract_mentions, hps]
  | cons a l =>
    have hne : (pyStrip s).isEmpty = false := by rw [hps]; rfl
    simp only [extract_mentions, hne, Bool.false_eq_true, if_false]
    rw [h]
    simp [hps]

/-- Witness for C4 at a concrete mention-free input (with surrounding
whitespace, exercising the trim). -/
theorem extract_mentions_no_mentions_witness :
    extract_mentions "  tell me about AI  ".data =
      [(defaultRole, "tell me about AI".data)] :=
  (extract_mentions_no_mentions "  tell me about AI  ".data (by decide)).trans
    (by decide)

/-- C2: for every input string in which all mention tokens form one run
separated only by whitespace (the broadcast case — the code's
`are_mentions_grouped` over all matches), `parse` returns one instruction per
mention occurrence, in order of appearance with duplicates preserved, all
carrying the identical shared body `sharedBody`; that body is the longer of
the trimmed text before the first mention and the trimmed text after the last
mention (its length is the max of the two), and it is empty exactly when both
sides are empty — in which case `parse` returns the empty sequence. -/
theorem extract_mentions_broadcast (s : List Char) (m0 : Mention)
    (ms : List Mention) (hm : findMentions (pyStrip s) = m0 :: ms)
    (hg : groupedCheck (pyStrip s) (m0 :: ms) = true) :
    (extract_mentions s =
       if (sharedBody (pyStrip s) m0 ((m0 :: ms).getLastD m0)).isEmpty then []
       else (m0 :: ms).map
         (fun m => (m.role, sharedBody (pyStrip s) m0 ((m0 :: ms).getLastD m0))))
    ∧ ((sharedBody (pyStrip s) m0 ((m0 :: ms).getLastD m0)).isEmpty ↔
        (beforeTxt (pyStrip s) m0 = [] ∧
         afterTxt (pyStrip s) ((m0 :: ms).getLastD m0) = []))
    ∧ (sharedBody (pyStrip s) m0 ((m0 :: ms).getLastD m0)).length =
        max (beforeTxt (pyStrip s) m0).length
          (afterTxt (pyStrip s) ((m0 :: ms).getLastD m0)).length := by
  refine ⟨?_, sharedBody_spec (pyStrip s) m0 ((m0 :: ms).getLastD m0)⟩
  rw [extract_mentions_with s m0 ms hm, hg]
  simp

/-- Witness for C2 at the spec's broadcast example. -/
theorem extract_mentions_broadcast_witness :
    extract_mentions "@Tech @Creative tell me about AI".data =
      [("Tech".data, "tell me about AI".data),
       ("Creative".data, "tell me about AI".data)] :=
  ((extract_mentions_broadcast "@Tech @Creative tell me about AI".data
      ⟨0, 5, "Tech".data⟩ [⟨6, 15, "Creative".data⟩]
      (by decide) (by decide)).1).trans (by decide)

/-- C3: for every input whose mentions do NOT form one whitespace-separated
run (the code's segmented case), `parse` assigns each mention the trimmed
text strictly between it and the next mention (or to end-of-string for the
last), emits an instruction only when that text is non-empty, drops empty
segments silently, and preserves the order of the rest — this is exactly
`segmentsOf`. -/
theorem extract_mentions_segmented (s : List Char) (m0 : Mention)
    (ms : List Mention) (hm : findMentions (pyStrip s) = m0 :: ms)
    (hg : groupedCheck (pyStrip s) (m0 :: ms) = false) :
    extract_mentions s = segmentsOf (pyStrip s) (m0 :: ms) := by
  rw [extract_mentions_with s m0 ms hm, hg]
  simp

/-- Witness for C3 at the spec's segmented example: the claimed value
`[("Tech","explain code."), ("Creative","write story about it")]`. -/
theorem extract_mentions_segmented_witness :
    extract_mentions "@Tech explain code. @Creative write story about it".data =
      [("Tech".data, "explain code.".data),
       ("Creative".data, "write story about it".data)] :=
  (extract_mentions_segmented
      "@Tech explain code. @Creative write story about it".data
      ⟨0, 5, "Tech".data⟩ [⟨20, 29, "Creative".data⟩]
      (by decide) (by decide)).trans (by decide)

/-- C9: in the broadcast case with a grouped run in the middle, when the
trimmed text before the first mention is non-empty and the trimmed text after
the last mention has exactly the same length, the BEFORE text is chosen as
the shared body; the after text is chosen only when strictly longer. -/
theorem extract_mentions_broadcast_tie (s : List Char) (m0 : Mention)
    (ms : List Mention) (hm : findMentions (pyStrip s) = m0 :: ms)
    (hg : groupedCheck (pyStrip s) (m0 :: ms) = true)
    (hb : beforeTxt (pyStrip s) m0 ≠ []) :
    ((afterTxt (pyStrip s) ((m0 :: ms).getLastD m0)).length =
        (beforeTxt (pyStrip s) m0).length →
      sharedBody (pyStrip s) m0 ((m0 :: ms).getLastD m0) =
          beforeTxt (pyStrip s) m0 ∧
        extract_mentions s =
          (m0 :: ms).map (fun m => (m.role, beforeTxt (pyStrip s) m0)))
    ∧ ((beforeTxt (pyStrip s) m0).length <
        (afterTxt (pyStrip s) ((m0 :: ms).getLastD m0)).length →
      sharedBody (pyStrip s) m0 ((m0 :: ms).getLastD m0) =
          afterTxt (pyStrip s) ((m0 :: ms).getLastD m0) ∧
        extract_mentions s =
          (m0 :: ms).map
            (fun m => (m.role, afterTxt (pyStrip s) ((m0 :: ms).getLastD m0)))) := by
  have hmain := extract_mentions_with s m0 ms hm
  rw [hg] at hmain
  simp only [if_true] at hmain
  constructor
  · intro heq
    have hsb : sharedBody (pyStrip s) m0 ((m0 :: ms).getLastD m0) =
        beforeTxt (pyStrip s) m0 := by
      unfold sharedBody
      rw [if_neg (by omega)]
    refine ⟨hsb, ?_⟩
    rw [hmain, hsb]
    rw [if_neg (by simp [List.isEmpty_iff, hb])]
  · intro hlt
    have hsb : sharedBody (pyStrip s) m0 ((m0 :: ms).getLastD m0) =
        afterTxt (pyStrip s) ((m0 :: ms).getLastD m0) := by
      unfold sharedBody
      rw [if_pos hlt]
    have hane : afterTxt (pyStrip s) ((m0 :: ms).getLastD m0) ≠ [] := by
      intro h
      rw [h] at hlt
      simp at hlt
    refine ⟨hsb, ?_⟩
    rw [hmain, hsb]
    rw [if_neg (by simpa [List.isEmpty_iff] using hane)]

/-- Witness for C9: `"aa @A @B bb"` has equally long text on both sides of
the grouped run, and the before text `"aa"` is chosen. -/
theorem extract_mentions_broadcast_tie_witness :
    extract_mentions "aa @A @B bb".data =
      [("A".data, "aa".data), ("B".data, "aa".data)] :=
  (((extract_mentions_broadcast_tie "aa @A @B bb".data
      ⟨3, 5, "A".data⟩ [⟨6, 8, "B".data⟩]
      (by decide) (by decide) (by decide)).1 (by decide)).2).trans (by decide)

/-!
## History-store lemmas
-/

theorem add_message_length_le (cm : ContextManager) (r c : List Char) (t : Nat)
    (hk : 0 < cm.max_history) :
    (add_message cm r c t).history.length ≤ cm.max_history := by
  simp only [add_message]
  split
  · next hgt =>
    simp only [pySliceLast]
    rw [if_neg (by omega)]
    simp only [List.length_drop]
    omega
  · next hle =>
    omega

/-- Appending into a full store drops exactly the oldest entry. -/
theorem add_message_evicts (cm : ContextManager) (r c : List Char) (t : Nat)
    (hk : 0 < cm.max_history) (hfull : cm.history.length = cm.max_history) :
    (add_message cm r c t).history = cm.history.tail ++ [⟨r, c, t⟩] := by
  simp only [add_message]
  rw [if_pos (by simp only [List.length_append, List.length_cons, List.length_nil]; omega)]
  simp only [pySliceLast]
  rw [if_neg (by omega)]
  have h1 : (cm.history ++ [(⟨r, c, t⟩ : Message)]).length - cm.max_history = 1 := by
    simp only [List.length_append, List.length_cons, List.length_nil]
    omega
  rw [h1, List.drop_append_of_le_length (by omega), List.drop_one]

/-- The appended message is always the last entry of the updated history
(the trim keeps a suffix, and keeps everything when `max_history = 0`). -/
theorem add_message_getLast (cm : ContextManager) (r c : List Char) (t : Nat) :
    (add_message cm r c t).history.getLast? = some ⟨r, c, t⟩ := by
  simp only [add_message]
  split
  · simp only [pySliceLast]
    split
    · exact List.getLast?_concat _
    · next hk0 =>
      rw [List.drop_append_of_le_length
        (by simp only [List.length_append, List.length_cons, List.length_nil]; omega)]
      exact List.getLast?_concat _
  · exact List.getLast?_concat _

/-- The `[-max_history:]` trim of context.py lines 49-50 and 170-171 bounds
the length whenever the capacity is positive. -/
theorem trimIf_length_le (l : List Message) (k : Nat) (hk : 0 < k) :
    (if l.length > k then pySliceLast l k else l).length ≤ k := by
  split
  · next hgt =>
    simp only [pySliceLast]
    rw [if_neg (by omega)]
    simp only [List.length_drop]
    omega
  · next hle => omega

/-- The history produced by the merge branch of `load_history`
(context.py lines 146-171), in closed form. -/
theorem load_history_parsed_history (cm : ContextManager) (fn : List Char)
    (s : Nat) (msgs : List Message) (pf : Bool) :
    ((load_history cm fn (.parsed s msgs) pf).1).history =
      if (List.insertionSort msgLe
            (if cm.history.isEmpty then msgs
             else cm.history ++ msgs.filter
               (fun m => !((cm.history.map Message.timestamp).contains m.timestamp)))).length >
          cm.max_history then
        pySliceLast
          (List.insertionSort msgLe
            (if cm.history.isEmpty then msgs
             else cm.history ++ msgs.filter
               (fun m => !((cm.history.map Message.timestamp).contains m.timestamp))))
          cm.max_history
      else
        List.insertionSort msgLe
          (if cm.history.isEmpty then msgs
           else cm.history ++ msgs.filter
             (fun m => !((cm.history.map Message.timestamp).contains m.timestamp))) := by
  cases pf <;> rfl

theorem load_history_length_le (cm : ContextManager) (fn : List Char)
    (file : LoadData) (pf : Bool) (hk : 0 < cm.max_history)
    (hpre : cm.history.length ≤ cm.max_history) :
    ((load_history cm fn file pf).1).history.length ≤ cm.max_history := by
  cases file with
  | absent =>
    simp only [load_history]
    split <;> simpa using hpre
  | corrupt => simpa [load_history] using hpre
  | parsed s msgs =>
    rw [load_history_parsed_history]
    exact trimIf_length_le _ _ hk

/-- C5 (amended with `0 < maxHistory`): provided the capacity is at least 1
and the pre-state satisfies the bound, every mutating operation — `append`,
`clear`, `load`/merge — leaves the history length at most `maxHistory`; and
appending into a full store drops exactly the oldest (head) entry and keeps
the new message as the last entry. -/
theorem history_bounded (cm : ContextManager) (r c : List Char) (t : Nat)
    (fn : List Char) (file : LoadData) (pf : Bool)
    (hk : 0 < cm.max_history) (hpre : cm.history.length ≤ cm.max_history) :
    (add_message cm r c t).history.length ≤ cm.max_history
    ∧ (clear_history cm).history.length ≤ cm.max_history
    ∧ ((load_history cm fn file pf).1).history.length ≤ cm.max_history
    ∧ (cm.history.length = cm.max_history →
        (add_message cm r c t).history = cm.history.tail ++ [⟨r, c, t⟩]) :=
  ⟨add_message_length_le cm r c t hk,
   by simp [clear_history],
   load_history_length_le cm fn file pf hk hpre,
   fun hfull => add_message_evicts cm r c t hk hfull⟩

/-- C5 counterexample: with `max_history = 0` (a value the constructor
accepts), the Python slice `history[-0:]` keeps the whole list, so a single
`append` leaves the history longer than `maxHistory` — the claimed invariant
`len(session) <= maxHistory` fails as stated. -/
theorem history_bounded_counterexample :
    ¬ ((add_message ⟨0, [], 0, [], []⟩ ['u'] ['h', 'i'] 0).history.length ≤
        (⟨0, [], 0, [], []⟩ : ContextManager).max_history) := by decide

/-- Witness for C5 at a concrete full store of capacity 2. -/
theorem history_bounded_witness :
    (add_message ⟨2, [⟨['u'], ['a'], 1⟩, ⟨['u'], ['b'], 2⟩], 0, [], []⟩
        ['u'] ['x'] 9).history.length ≤ 2
    ∧ (add_message ⟨2, [⟨['u'], ['a'], 1⟩, ⟨['u'], ['b'], 2⟩], 0, [], []⟩
        ['u'] ['x'] 9).history = [⟨['u'], ['b'], 2⟩, ⟨['u'], ['x'], 9⟩] := by
  have h := history_bounded ⟨2, [⟨['u'], ['a'], 1⟩, ⟨['u'], ['b'], 2⟩], 0, [], []⟩
    ['u'] ['x'] 9 ['s'] .absent false (by decide) (by decide)
  exact ⟨h.1, (h.2.2.2 (by decide)).trans (by decide)⟩

/-- C7 (amended): `add_message` mutates the in-memory history and then
persists; when persistence succeeds the call returns normally, but a
persistence failure propagates to the caller as an exception (there is no
handler in `add_message` or `_save_history`), with the appended message
already in place as the last history entry. -/
theorem add_message_run_spec (cm : ContextManager) (r c : List Char) (t : Nat)
    (pf : Bool) :
    (pf = false → add_message_run cm r c t pf = .ok (add_message cm r c t))
    ∧ (pf = true → add_message_run cm r c t pf = .error (add_message cm r c t))
    ∧ (add_message cm r c t).history.getLast? = some ⟨r, c, t⟩ := by
  refine ⟨fun h => ?_, fun h => ?_, add_message_getLast cm r c t⟩ <;> subst h <;> rfl

/-- C7 counterexample: a persistence failure makes `add_message` raise — the
call does NOT return normally, refuting "append never raises an error to the
caller, even when persisting fails". -/
theorem add_message_run_counterexample :
    exceptOk (add_message_run ⟨100, [], 0, [], []⟩ ['u'] ['h', 'i'] 0 true) = false := rfl

/-- Witness for C7's amended theorem at a successful persistence. -/
theorem add_message_run_spec_witness :
    add_message_run ⟨100, [], 0, [], []⟩ ['u'] ['h', 'i'] 0 false =
      .ok (add_message ⟨100, [], 0, [], []⟩ ['u'] ['h', 'i'] 0) :=
  (add_message_run_spec ⟨100, [], 0, [], []⟩ ['u'] ['h', 'i'] 0 false).1 rfl

/-- C8 (amended): an `Ok` outcome appends exactly one history entry under the
role's own speaker identity; a timeout or an API failure inside the agent
call is converted by `get_response` into an error STRING and likewise
appended under the role's own identity (as the last entry); only an exception
raised outside the agent call (role-config lookup, agent construction, the
history append itself) produces a single `"system"`-speaker diagnostic entry;
a role that is not found appends nothing. -/
theorem process_agent_response_history (cm : ContextManager)
    (role_name : List Char) (now : Nat) :
    (∀ c, (process_agent_response cm role_name (.agent (.ok c)) now).1 =
        add_message cm role_name c now)
    ∧ ((process_agent_response cm role_name (.agent .timedOut) now).1 =
          add_message cm role_name timeoutMsg now
       ∧ (process_agent_response cm role_name
            (.agent .timedOut) now).1.history.getLast? =
            some ⟨role_name, timeoutMsg, now⟩)
    ∧ (∀ reason,
        (process_agent_response cm role_name (.agent (.apiFailed reason)) now).1 =
          add_message cm role_name
            ("Error getting response from ".data ++ role_name ++ ": ".data ++ reason) now)
    ∧ (∀ reason,
        (process_agent_response cm role_name (.pipelineError reason) now).1 =
          add_message cm "system".data
            ("Error from ".data ++ role_name ++ ": ".data ++ reason) now
        ∧ (process_agent_response cm role_name
            (.pipelineError reason) now).1.history.getLast? =
            some ⟨"system".data, "Error from ".data ++ role_name ++ ": ".data ++ reason, now⟩)
    ∧ (process_agent_response cm role_name .notFound now).1 = cm :=
  ⟨fun _ => rfl,
   ⟨rfl, add_message_getLast cm role_name timeoutMsg now⟩,
   fun _ => rfl,
   fun reason => ⟨rfl, add_message_getLast cm "system".data
     ("Error from ".data ++ role_name ++ ": ".data ++ reason) now⟩,
   rfl⟩

/-- C8 counterexample: a timed-out call IS recorded in history under the
role's own speaker identity (`"Tech"`), not as a `"system"` diagnostic entry
— `Agent.get_response` converts the timeout into a string returned normally,
and `_process_agent_response` appends that string via
`add_message(role_name, response)`. -/
theorem process_agent_response_counterexample :
    (process_agent_response ⟨100, [], 0, [], []⟩ "Tech".data
        (.agent .timedOut) 3).1.history =
      [⟨"Tech".data, timeoutMsg, 3⟩]
    ∧ "Tech".data ≠ "system".data := by
  exact ⟨by decide, by decide⟩

/-- Witness for C8's amended theorem at a concrete `Ok` outcome. -/
theorem process_agent_response_history_witness :
    (process_agent_response ⟨100, [], 0, [], []⟩ "Tech".data
        (.agent (.ok ['h', 'i'])) 3).1 =
      add_message ⟨100, [], 0, [], []⟩ "Tech".data ['h', 'i'] 3 :=
  (process_agent_response_history ⟨100, [], 0, [], []⟩ "Tech".data 3).1 ['h', 'i']

/-- Distinct-timestamp relation between messages. -/
def tsNe (a b : Message) : Prop := a.timestamp ≠ b.timestamp

instance : DecidableRel tsNe :=
  fun a b => inferInstanceAs (Decidable (a.timestamp ≠ b.timestamp))

theorem tsNe_symmetric : Symmetric tsNe := fun _ _ h => Ne.symm h

theorem pySliceLast_sublist (l : List α) (k : Nat) : (pySliceLast l k).Sublist l := by
  unfold pySliceLast
  split
  · exact List.Sublist.refl l
  · exact List.drop_sublist _ l

/-- C6 (amended): provided the capacity is positive and neither the in-memory
history nor the loaded file contains duplicate timestamps internally,
loading a parsed session into a non-empty in-memory history succeeds and
yields a history with pairwise-distinct timestamps, sorted by timestamp,
of length at most `maxHistory`, each entry drawn from the old history or the
file; loaded messages whose timestamp already occurs in memory are dropped. -/
theorem load_history_merge_spec (cm : ContextManager) (fn : List Char) (s : Nat)
    (msgs : List Message) (hk : 0 < cm.max_history) (hne : cm.history ≠ [])
    (hdh : cm.history.Pairwise tsNe) (hdm : msgs.Pairwise tsNe) :
    ((load_history cm fn (.parsed s msgs) false).2 = .success)
    ∧ ((load_history cm fn (.parsed s msgs) false).1).history.Pairwise tsNe
    ∧ ((load_history cm fn (.parsed s msgs) false).1).history.Pairwise msgLe
    ∧ ((load_history cm fn (.parsed s msgs) false).1).history.length ≤ cm.max_history
    ∧ (∀ m ∈ ((load_history cm fn (.parsed s msgs) false).1).history,
        m ∈ cm.history ∨ m ∈ msgs) := by
  have hie : cm.history.isEmpty = false := by
    cases h : cm.history with
    | nil => exact absurd h hne
    | cons a l => rfl
  have heq := load_history_parsed_history cm fn s msgs false
  rw [hie] at heq
  simp only [Bool.false_eq_true, if_false] at heq
  set merged := cm.history ++ msgs.filter
    (fun m => !((cm.history.map Message.timestamp).contains m.timestamp)) with hmerged
  set L := List.insertionSort msgLe merged with hL
  have hperm : L.Perm merged := List.perm_insertionSort msgLe merged
  have hsub : ((load_history cm fn (.parsed s msgs) false).1).history.Sublist L := by
    rw [heq]
    split
    · exact pySliceLast_sublist L cm.max_history
    · exact List.Sublist.refl L
  have hmergedNe : merged.Pairwise tsNe := by
    rw [hmerged, List.pairwise_append]
    refine ⟨hdh, List.Pairwise.sublist (List.filter_sublist msgs) hdm, ?_⟩
    intro a ha b hb
    have hbts : ((cm.history.map Message.timestamp).contains b.timestamp) = false := by
      have := (List.mem_filter.mp hb).2
      simpa using this
    intro hab
    have hmem : b.timestamp ∈ cm.history.map Message.timestamp := by
      rw [← hab]
      exact List.mem_map_of_mem Message.timestamp ha
    have hcontains : (cm.history.map Message.timestamp).contains b.timestamp = true := by
      simpa using hmem
    rw [hcontains] at hbts
    exact absurd hbts (by simp)
  have hLNe : L.Pairwise tsNe :=
    (hperm.pairwise_iff (fun h => Ne.symm h)).mpr hmergedNe
  have hLsorted : L.Pairwise msgLe := List.sorted_insertionSort msgLe merged
  refine ⟨rfl, List.Pairwise.sublist hsub hLNe, List.Pairwise.sublist hsub hLsorted,
    ?_, ?_⟩
  · rw [heq]
    exact trimIf_length_le L cm.max_history hk
  · intro m hm
    have hmL : m ∈ L := hsub.subset hm
    have hmMerged : m ∈ merged := hperm.subset hmL
    rcases List.mem_append.mp hmMerged with h | h
    · exact Or.inl h
    · exact Or.inr (List.mem_of_mem_filter h)

/-- C6 counterexample: loading a file that contains two messages with the
SAME timestamp (5) into a non-empty in-memory history succeeds but leaves
both in the history — the dedup set is built from the pre-existing messages
only, so duplicates inside the loaded file survive; and with
`max_history = 0` the `[-0:]` slice does not truncate either.  This refutes
"the result never contains two messages with the same timestamp ... truncated
to maxHistory". -/
theorem load_history_merge_counterexample :
    ((load_history ⟨0, [⟨['u'], ['a'], 0⟩], 0, [], []⟩ ['s']
        (.parsed 0 [⟨['r'], ['b'], 5⟩, ⟨['q'], ['c'], 5⟩]) false).2 = .success)
    ∧ ((load_history ⟨0, [⟨['u'], ['a'], 0⟩], 0, [], []⟩ ['s']
        (.parsed 0 [⟨['r'], ['b'], 5⟩, ⟨['q'], ['c'], 5⟩]) false).1).history =
      [⟨['u'], ['a'], 0⟩, ⟨['r'], ['b'], 5⟩, ⟨['q'], ['c'], 5⟩]
    ∧ ¬ ((load_history ⟨0, [⟨['u'], ['a'], 0⟩], 0, [], []⟩ ['s']
        (.parsed 0 [⟨['r'], ['b'], 5⟩, ⟨['q'], ['c'], 5⟩]) false).1).history.Pairwise tsNe
    ∧ ¬ (((load_history ⟨0, [⟨['u'], ['a'], 0⟩], 0, [], []⟩ ['s']
        (.parsed 0 [⟨['r'], ['b'], 5⟩, ⟨['q'], ['c'], 5⟩]) false).1).history.length ≤
        (⟨0, [⟨['u'], ['a'], 0⟩], 0, [], []⟩ : ContextManager).max_history) := by
  refine ⟨rfl, by decide, by decide, by decide⟩

/-- Witness for C6's amended theorem at a concrete merge: capacity 2,
in-memory `[a@5]`, file `[b@3]`. -/
theorem load_history_merge_spec_witness :
    ((load_history ⟨2, [⟨['u'], ['a'], 5⟩], 0, [], []⟩ ['s']
        (.parsed 0 [⟨['r'], ['b'], 3⟩]) false).2 = .success)
    ∧ ((load_history ⟨2, [⟨['u'], ['a'], 5⟩], 0, [], []⟩ ['s']
        (.parsed 0 [⟨['r'], ['b'], 3⟩]) false).1).history.Pairwise tsNe
    ∧ ((load_history ⟨2, [⟨['u'], ['a'], 5⟩], 0, [], []⟩ ['s']
        (.parsed 0 [⟨['r'], ['b'], 3⟩]) false).1).history.Pairwise msgLe
    ∧ ((load_history ⟨2, [⟨['u'], ['a'], 5⟩], 0, [], []⟩ ['s']
        (.parsed 0 [⟨['r'], ['b'], 3⟩]) false).1).history.length ≤ 2
    ∧ (∀ m ∈ ((load_history ⟨2, [⟨['u'], ['a'], 5⟩], 0, [], []⟩ ['s']
        (.parsed 0 [⟨['r'], ['b'], 3⟩]) false).1).history,
        m ∈ [(⟨['u'], ['a'], 5⟩ : Message)] ∨ m ∈ [(⟨['r'], ['b'], 3⟩ : Message)]) :=
  load_history_merge_spec ⟨2, [⟨['u'], ['a'], 5⟩], 0, [], []⟩ ['s'] 0
    [⟨['r'], ['b'], 3⟩] (by decide) (by decide) (by decide) (by decide)

/-- C10 (amended): every call to `load_history` rebinds both persistence
targets (the `.json` session file and the `.txt` rendering) to the requested
base name before anything is read, in every branch — including those that
report failure — so later appends persist under the new name; and the
in-memory message list is unchanged on a failed load when the failure is a
read/parse failure (and on a missing file).  (When the parse succeeds and
only the final save fails, the call reports failure but keeps the merged
history — see the counterexample.) -/
theorem load_history_rebinds (cm : ContextManager) (fn : List Char)
    (file : LoadData) (pf : Bool) :
    ((load_history cm fn file pf).1).session_file = rsplitBase fn ++ jsonExt
    ∧ ((load_history cm fn file pf).1).text_file = rsplitBase fn ++ txtExt
    ∧ (file = .corrupt →
        ((load_history cm fn file pf).1).history = cm.history
        ∧ (load_history cm fn file pf).2 = .failure)
    ∧ (file = .absent → ((load_history cm fn file pf).1).history = cm.history) := by
  refine ⟨?_, ?_, ?_, ?_⟩
  · cases file with
    | absent => simp only [load_history]; split <;> rfl
    | corrupt => rfl
    | parsed s msgs => cases pf <;> rfl
  · cases file with
    | absent => simp only [load_history]; split <;> rfl
    | corrupt => rfl
    | parsed s msgs => cases pf <;> rfl
  · intro h
    subst h
    exact ⟨rfl, rfl⟩
  · intro h
    subst h
    simp only [load_history]
    split <;> rfl

/-- C10 counterexample: a load whose file parses fine but whose final
`_save_history()` raises (inside the `try`) returns `False` — a "failed
load" — yet the in-memory message list HAS changed: the merged history is
kept.  This refutes "the in-memory message list itself is left unchanged on
a failed load". -/
theorem load_history_rebinds_counterexample :
    ((load_history ⟨10, [], 0, [], []⟩ ['s'] (.parsed 7 [⟨['r'], ['b'], 3⟩]) true).2 =
      .failure)
    ∧ ((load_history ⟨10, [], 0, [], []⟩ ['s']
        (.parsed 7 [⟨['r'], ['b'], 3⟩]) true).1).history = [⟨['r'], ['b'], 3⟩]
    ∧ ((load_history ⟨10, [], 0, [], []⟩ ['s']
        (.parsed 7 [⟨['r'], ['b'], 3⟩]) true).1).history ≠
        (⟨10, [], 0, [], []⟩ : ContextManager).history := by
  exact ⟨rfl, by decide, by decide⟩

/-- Witness for C10 at a concrete corrupt-file load: the paths are rebound to
the requested name (`"old.json"` → base `"old"`) even though the load fails,
and the history is untouched. -/
theorem load_history_rebinds_witness :
    ((load_history ⟨10, [⟨['u'], ['a'], 1⟩], 0, ['x'], ['y']⟩ "old.json".data
        .corrupt false).1).session_file = "old.json".data
    ∧ ((load_history ⟨10, [⟨['u'], ['a'], 1⟩], 0, ['x'], ['y']⟩ "old.json".data
        .corrupt false).1).text_file = "old.txt".data
    ∧ ((load_history ⟨10, [⟨['u'], ['a'], 1⟩], 0, ['x'], ['y']⟩ "old.json".data
        .corrupt false).1).history = [⟨['u'], ['a'], 1⟩]
    ∧ (load_history ⟨10, [⟨['u'], ['a'], 1⟩], 0, ['x'], ['y']⟩ "old.json".data
        .corrupt false).2 = .failure := by
  have h := load_history_rebinds ⟨10, [⟨['u'], ['a'], 1⟩], 0, ['x'], ['y']⟩
    "old.json".data .corrupt false
  exact ⟨h.1.trans (by decide), h.2.1.trans (by decide),
    (h.2.2.1 rfl).1, (h.2.2.1 rfl).2⟩

/-!
## Ordered reassembly of concurrent results
-/

theorem gatherStep_length (rms : List (List Char × List Char))
    (respond : List Char → List Char → List Char)
    (slots : List (Option (List Char × List Char))) (i : Nat) :
    (gatherStep rms respond slots i).length = slots.length := by
  unfold gatherStep
  cases h : rms[i]? <;> simp

/-- After processing the completion events in `order`, slot `j` holds task
`j`'s result exactly when `j` completed, and is otherwise untouched. -/
theorem gather_fold_getElem (rms : List (List Char × List Char))
    (respond : List Char → List Char → List Char) (order : List Nat) :
    ∀ (slots : List (Option (List Char × List Char))),
      slots.length = rms.length → ∀ j : Nat,
      (order.foldl (gatherStep rms respond) slots)[j]? =
        if j ∈ order ∧ j < rms.length then
          rms[j]?.map (fun rm => some (rm.1, respond rm.1 rm.2))
        else slots[j]? := by
  induction order with
  | nil =>
    intro slots hlen j
    simp
  | cons i rest ih =>
    intro slots hlen j
    have hstep_len : (gatherStep rms respond slots i).length = rms.length := by
      rw [gatherStep_length, hlen]
    rw [List.foldl_cons, ih _ hstep_len]
    by_cases hjrest : j ∈ rest ∧ j < rms.length
    · rw [if_pos hjrest, if_pos ⟨List.mem_cons_of_mem i hjrest.1, hjrest.2⟩]
    · rw [if_neg hjrest]
      by_cases hij : i = j
      · subst hij
        by_cases hn : i < rms.length
        · have hrm : rms[i]? = some rms[i] := List.getElem?_eq_getElem hn
          unfold gatherStep
          rw [hrm]
          rw [List.getElem?_set_self (by omega)]
          rw [if_pos ⟨List.mem_cons_self i rest, hn⟩]
          rfl
        · have hrm : rms[i]? = none := by
            rw [List.getElem?_eq_none_iff]
            omega
          unfold gatherStep
          rw [hrm]
          rw [if_neg (by intro hc; exact hn hc.2)]
      · have hstep : (gatherStep rms respond slots i)[j]? = slots[j]? := by
          unfold gatherStep
          cases h : rms[i]? with
          | none => rfl
          | some rm => exact List.getElem?_set_ne hij
        rw [hstep]
        rw [if_neg ?_]
        intro hc
        rcases List.mem_cons.mp hc.1 with h | h
        · exact hij h.symm
        · exact hjrest ⟨h, hc.2⟩

/-- C1: for every sequence of routing instructions dispatched concurrently,
and for EVERY completion order (any permutation of the task indices), the
sequence of `(role, response)` results handed back by the gather step is in
exactly the input instruction order. -/
theorem gather_responses_input_order (rms : List (List Char × List Char))
    (respond : List Char → List Char → List Char) (order : List Nat)
    (horder : order.Perm (List.range rms.length)) :
    gather_responses rms respond order =
      rms.map (fun p => some (p.1, respond p.1 p.2)) := by
  apply List.ext_getElem?
  intro j
  unfold gather_responses
  rw [gather_fold_getElem rms respond order (List.replicate rms.length none)
    (List.length_replicate _ _) j]
  by_cases hj : j < rms.length
  · have hmem : j ∈ order := horder.mem_iff.mpr (List.mem_range.mpr hj)
    rw [if_pos ⟨hmem, hj⟩, List.getElem?_map]
  · rw [if_neg (by intro hc; exact hj hc.2)]
    rw [List.getElem?_replicate, if_neg hj]
    symm
    rw [List.getElem?_eq_none_iff, List.length_map]
    omega

/-- Witness for C1: three instructions completing in the order `2, 0, 1`
still yield results in input order. -/
theorem gather_responses_input_order_witness :
    gather_responses [(['a'], ['x']), (['b'], ['y']), (['c'], ['z'])]
        (fun r m => r ++ m) [2, 0, 1] =
      [(['a'], ['x']), (['b'], ['y']), (['c'], ['z'])].map
        (fun p => some (p.1, p.1 ++ p.2)) :=
  gather_responses_input_order [(['a'], ['x']), (['b'], ['y']), (['c'], ['z'])]
    (fun r m => r ++ m) [2, 0, 1] (by decide)
